import Mathlib

/-!
Verification of the animation engine of the `ismael1361/utils` repository.

The engine (source: `src/Animation` — `timing`, `wait`, `delay`, `parallel`,
`all`, `stagger`, `create` — and `src/SharedValue`) is written with JavaScript
generators.  Following the repository spec's own porting note (§9), each
generator function is embedded as an explicit state machine: a step function
`deltaTime → state → world → state × world × StepOut` whose states are the
suspension points (`yield`s) of the generator body.  Times and numeric values
are rationals (`ℚ`); the driver's wall clock is an explicit parameter.

JS generator protocol facts used by the translation:
  * calling a generator function runs none of its body; the first `next()`
    runs the body up to the first `yield` and its argument is discarded;
  * `yield* inner` first advances `inner` with `undefined`, then forwards
    each subsequent `next(v)` to it; when `inner` returns, the outer body
    continues within the same resumption;
  * `next()` on a finished generator returns `{done: true}` with no effect.
-/

/-- Outcome of resuming a generator once: it suspended at a `yield`, it
returned (`done`), or it threw an exception (which propagates to the
caller of `next()`). -/
inductive StepOut where
  | yielded
  | done
  | thrown
deriving DecidableEq, Repr

/-- A generator body as a step function: given the `deltaTime` delivered by
the resumption, the current suspension state and the world of shared values,
produce the next state, the new world and the kind of outcome. -/
def StepFn (σ W : Type) : Type := ℚ → σ → W → σ × W × StepOut

/-- A generator instance (the object a generator call returns): its step
function, its current suspension state, and whether it has already finished
(returned or thrown). -/
structure GenInst (σ W : Type) where
  step : StepFn σ W
  st : σ
  fin : Bool

/-- `iterator.next(d)` on instance `g`: a finished generator reports
`done` with no effect; otherwise the body runs one step, and the instance
becomes finished when the step returned or threw. -/
def advanceInst {σ W : Type} (g : GenInst σ W) (d : ℚ) (w : W) :
    GenInst σ W × W × StepOut :=
  if g.fin then (g, w, .done)
  else
    ({ g with
        st := (g.step d g.st w).1
        fin := match (g.step d g.st w).2.2 with | .yielded => false | _ => true },
      (g.step d g.st w).2.1, (g.step d g.st w).2.2)

/-- Drive a step function through a list of driver resumptions (one
`deltaTime` per resumption), returning the final state and world. -/
def runSteps {σ W : Type} (f : StepFn σ W) : List ℚ → σ → W → σ × W
  | [], s, w => (s, w)
  | d :: ds, s, w =>
      let r := f d s w
      runSteps f ds r.1 r.2.1

/-! ## Reactive Value (`src/SharedValue/index.ts`, class `SharedValue`) -/

/-- A notification emitted by a `SharedValue` write: the `"value"` event or
the `"change"` event, each carrying the new value.  The publish/subscribe
primitive delivers them synchronously and in order (spec §6), so the ordered
list of emissions is the observable trace of a write. -/
inductive Notice (T : Type) where
  | value (t : T)
  | change (t : T)
deriving DecidableEq, Repr

/-- `SharedValue<T>`: a mutable cell holding `value` and its `initialValue`. -/
structure SV (T : Type) where
  initialValue : T
  value : T
deriving DecidableEq, Repr

/-- `set value(v)` (SharedValue/index.ts lines 57–62):
`if (String(value) === String(this._value)) return;` then store and emit
`"value"` followed by `"change"`.  `String(·)` is modelled by an explicit
coercion `str` into a type with decidable equality. -/
def SV.setValue {T Str : Type} [DecidableEq Str] (str : T → Str)
    (sv : SV T) (v : T) : SV T × List (Notice T) :=
  if str v = str sv.value then (sv, [])
  else ({ sv with value := v }, [Notice.value v, Notice.change v])

/-- `clear()` (SharedValue/index.ts lines 67–69): `this.value = this._initialValue`. -/
def SV.clear {T Str : Type} [DecidableEq Str] (str : T → Str) (sv : SV T) :
    SV T × List (Notice T) :=
  SV.setValue str sv sv.initialValue

/-- Numeric cells: JS `String()` is injective on numbers (each double prints
as its shortest round-tripping decimal), so on the numeric model the change
test `String(v) !== String(current)` is equality of the numbers themselves;
we instantiate `str` with the identity coercion. -/
def svSetQ (sv : SV ℚ) (v : ℚ) : SV ℚ :=
  (SV.setValue (fun q : ℚ => q) sv v).1

/-- `clear()` on a numeric cell. -/
def svClearQ (sv : SV ℚ) : SV ℚ := svSetQ sv sv.initialValue

/-! ## Easing (`src/Animation/Easing.ts`) -/

namespace Easing

/-- `Easing.linear`: `f(t) = t`. -/
def linear (t : ℚ) : ℚ := t

end Easing

/-! ## `wait` (`src/Animation/index.ts`, function `wait`)

```js
export function* wait(duration = 1000) {
    const from = (yield).deltaTime;
    const to = from + duration;
    for (let current = from; current < to; ) {
        current += yield* timeSincePreviousFrame();
    }
}
```

Suspension points: the first `yield` (state `started`) and the `yield`
inside `timeSincePreviousFrame` (state `looping`).  `wait` touches no
shared values, so its step function carries no world. -/

inductive WaitSt where
  | created
  | started
  | looping (fromV current toV : ℚ)
  | finishedW
deriving DecidableEq, Repr

/-- One resumption of a `wait(duration)` generator; `true` means the
generator returned on this resumption. -/
def waitStep (duration : ℚ) (d : ℚ) : WaitSt → WaitSt × Bool
  | .created => (.started, false)
  | .started =>
      let fromV := d
      let toV := fromV + duration
      if fromV < toV then (.looping fromV fromV toV, false)
      else (.finishedW, true)
  | .looping fromV current toV =>
      let current' := current + d
      if current' < toV then (.looping fromV current' toV, false)
      else (.finishedW, true)
  | .finishedW => (.finishedW, true)

/-! ## `timing` (`src/Animation/index.ts`, function `timing`)

```js
export function* timing(value, config = defaultTimingConfig) {
    if (value instanceof SharedValue) {
        config.from = value.value;
    }
    const { from = 0, to, easing, delay, duration } = { ...defaultTimingConfig, ...config };
    yield* wait(delay);
    const start = (yield).deltaTime;
    const end = start + duration;
    let cancel = false;
    for (let current = start; current < end; ) {
        const progress = easing((current - start) / duration);
        const val = from + (to - from) * progress;
        if (value instanceof SharedValue) value.value = val;
        if (value instanceof Function) cancel = value(val) || cancel;
        if (!cancel) current += yield* timeSincePreviousFrame();
        if (cancel) break;
    }
    if (value instanceof SharedValue) value.value = to;
    if (value instanceof Function) value(to);
}
```

We embed the `SharedValue`-target instance (the world is the target cell
itself).  With a `SharedValue` target, `value instanceof Function` is never
true, so `cancel` stays `false` and the cancellation branches are dead.
The caller's `config` object is carried in every machine state so that its
in-place mutation stays observable. -/

/-- `TimingConfig` (`src/Animation/Types.ts`).  `from` is declared required
by the TS type but callers omit it at runtime (the destructuring supplies a
default), so it is modelled as optional; `easing`, `delay`, `duration` are
optional in the TS type. -/
structure TimingConfig where
  «from» : Option ℚ
  «to» : ℚ
  easing : Option (ℚ → ℚ)
  delay : Option ℚ
  duration : Option ℚ

/-- `defaultTimingConfig` (`src/Animation/index.ts`). -/
def defaultTimingConfig : TimingConfig :=
  { «from» := some 0, «to» := 1, easing := some Easing.linear,
    delay := some 0, duration := some 600 }

/-- The fully-defaulted configuration produced by
`const { from = 0, to, easing, delay, duration } = { ...defaultTimingConfig, ...config }`. -/
structure EffConfig where
  «from» : ℚ
  «to» : ℚ
  easing : ℚ → ℚ
  delay : ℚ
  duration : ℚ

/-- The object spread `{ ...defaultTimingConfig, ...config }`: a property
present on `config` overrides the default, an absent one falls back to it
(and `from` additionally has the destructuring default `0`, which coincides
with `defaultTimingConfig.from`). -/
def mergeConfig (cfg : TimingConfig) : EffConfig :=
  { «from» := cfg.«from».getD 0
    «to» := cfg.«to»
    easing := cfg.easing.getD Easing.linear
    delay := cfg.delay.getD 0
    duration := cfg.duration.getD 600 }

/-- Suspension points of the `timing` body after its first resumption:
delegating to `wait(delay)`, suspended at `const start = (yield)`, suspended
inside `timeSincePreviousFrame` within the for-loop, or finished. -/
inductive TimingPhase where
  | inWaitT (ws : WaitSt)
  | awaitStart
  | inLoop (start current : ℚ)
  | finishedT
deriving DecidableEq, Repr

/-- State of a `timing(target, config)` generator with a `SharedValue`
target: not yet resumed (holding the caller's `config` object), or active,
holding the caller's (possibly mutated) `config` object, the defaulted
configuration computed on the first resumption, and the current phase. -/
inductive TimingSt where
  | createdT (cfg : TimingConfig)
  | activeT (cfg : TimingConfig) (eff : EffConfig) (ph : TimingPhase)

/-- One resumption of `timing(target, config)` where `target` is the
`SharedValue` cell constituting the world. -/
def timingStep : StepFn TimingSt (SV ℚ) := fun d s w =>
  match s with
  | .createdT cfg =>
      -- `if (value instanceof SharedValue) config.from = value.value;`
      -- (in-place mutation of the caller's config object), then the
      -- defaulting destructure, then `yield* wait(delay)`: the wait
      -- generator is created and advanced once, suspending at its
      -- first yield.
      let cfg' := { cfg with «from» := some w.value }
      let eff := mergeConfig cfg'
      (.activeT cfg' eff (.inWaitT .started), w, .yielded)
  | .activeT cfg eff ph =>
      match ph with
      | .inWaitT ws =>
          let r := waitStep eff.delay d ws
          if r.2 then
            -- `wait(delay)` returned during this resumption; the body
            -- continues to `const start = (yield).deltaTime` and suspends.
            (.activeT cfg eff .awaitStart, w, .yielded)
          else
            (.activeT cfg eff (.inWaitT r.1), w, .yielded)
      | .awaitStart =>
          let start := d
          -- for-loop entry with `current = start`, `end = start + duration`
          if start < start + eff.duration then
            let progress := eff.easing ((start - start) / eff.duration)
            let val := eff.«from» + (eff.«to» - eff.«from») * progress
            (.activeT cfg eff (.inLoop start start), svSetQ w val, .yielded)
          else
            -- loop skipped; final `value.value = to`, generator returns
            (.activeT cfg eff .finishedT, svSetQ w eff.«to», .done)
      | .inLoop start current =>
          let current' := current + d
          if current' < start + eff.duration then
            let progress := eff.easing ((current' - start) / eff.duration)
            let val := eff.«from» + (eff.«to» - eff.«from») * progress
            (.activeT cfg eff (.inLoop start current'), svSetQ w val, .yielded)
          else
            -- loop exits; final `value.value = to`, generator returns
            (.activeT cfg eff .finishedT, svSetQ w eff.«to», .done)
      | .finishedT => (.activeT cfg eff .finishedT, w, .done)

/-- The phase of a timing state (`none` before the first resumption). -/
def TimingSt.phaseOf : TimingSt → Option TimingPhase
  | .createdT _ => none
  | .activeT _ _ ph => some ph

/-- The caller's `config` object as held by a timing state. -/
def TimingSt.cfgOf : TimingSt → TimingConfig
  | .createdT cfg => cfg
  | .activeT cfg _ _ => cfg

/-- The `to` the machine will snap to on completion: `config.to` before the
first resumption, the defaulted `to` afterwards (they coincide, since the
first-resumption mutation touches only `from`). -/
def TimingSt.toTarget : TimingSt → ℚ
  | .createdT cfg => cfg.«to»
  | .activeT _ eff _ => eff.«to»

/-- Invariant for the completion claim: whenever a timing machine is in the
`finishedT` phase, the target cell holds the snap-to value `to`. -/
def TimingInv (s : TimingSt) (w : SV ℚ) : Prop :=
  s.phaseOf = some .finishedT → w.value = s.toTarget

/-! ## `delay` (`src/Animation/index.ts`, function `delay`)

```js
export function* delay(duration = 1000, animation?) {
    yield* wait(duration);
    if (animation) yield* materializeGenerator(animation);
}
```

`materializeGenerator` applies a factory (or passes a generator through);
in the model the payload is already a generator instance.  The payload is
only reached — and advanced for the first time — in the resumption in which
`wait(duration)` returns (`yield*` then advances it once; the value passed
to that first advance is discarded by the generator protocol, so feeding it
the current delta is immaterial for generators translated from source,
whose `created` state ignores its input). -/

inductive DelaySt (σ W : Type) where
  | createdD
  | inWaitD (ws : WaitSt)
  | inAnimD (g : GenInst σ W)
  | finishedD

/-- One resumption of `delay(duration, animation)`. -/
def delayStep {σ W : Type} (duration : ℚ) (animation : Option (GenInst σ W)) :
    StepFn (DelaySt σ W) W := fun d s w =>
  match s with
  | .createdD =>
      -- body start: `yield* wait(duration)` creates the wait generator and
      -- advances it once; it suspends at its first yield
      (.inWaitD .started, w, .yielded)
  | .inWaitD ws =>
      let r := waitStep duration d ws
      if r.2 then
        match animation with
        | none => (.finishedD, w, .done)
        | some g =>
            let a := advanceInst g d w
            match a.2.2 with
            | .yielded => (.inAnimD a.1, a.2.1, .yielded)
            | .done => (.finishedD, a.2.1, .done)
            | .thrown => (.finishedD, a.2.1, .thrown)
      else (.inWaitD r.1, w, .yielded)
  | .inAnimD g =>
      let a := advanceInst g d w
      match a.2.2 with
      | .yielded => (.inAnimD a.1, a.2.1, .yielded)
      | .done => (.finishedD, a.2.1, .done)
      | .thrown => (.finishedD, a.2.1, .thrown)
  | .finishedD => (.finishedD, w, .done)

/-- The generator `stagger` builds for the child at position `index`:
`(function* () { yield* wait(delayMs * index); yield* materializeGenerator(input); })()`
— textually the body of `delay(delayMs * index, input)`. -/
def staggerWrapStep {σ W : Type} (delayMs : ℚ) (index : ℕ) (g : GenInst σ W) :
    StepFn (DelaySt σ W) W :=
  delayStep (delayMs * index) (some g)

/-! ## `parallel` / `all` (`src/Animation/index.ts`)

```js
export function* parallel(...animations) {
    const iterators = animations.map((input) => materializeGenerator(input));
    let isDone = false;
    let timeSinceFirstFrame = 0;
    while (!isDone) {
        const done = [];
        for (const iterator of iterators) {
            const val = iterator.next({ ...(yield), deltaTime: timeSinceFirstFrame });
            done.push(val.done);
        }
        isDone = done.every((d) => d);
        if (!isDone) {
            timeSinceFirstFrame = (yield).deltaTime;
        }
    }
}
```

Note the `yield` inside the for-loop: each child's `next()` call consumes
one driver resumption of its own (the spread `{...(yield), deltaTime: tsff}`
suspends before the child is advanced, and overrides the delivered
`deltaTime` with `timeSinceFirstFrame`).  Children are held in a JS array
and mutated in place; the model threads the instance list through the
states, splitting it at the for-of position into the already-advanced
prefix (`proc`, reversed) and the not-yet-advanced remainder.  `done.every`
over the flags pushed so far is accumulated as the conjunction `acc`.
All children share one state type `σc`; heterogeneous children are covered
by instantiating `σc` with a sum type. -/

inductive ParSt (σc W : Type) where
  | createdP (anims : List (GenInst σc W))
  | advancing (proc : List (GenInst σc W)) (cur : GenInst σc W)
      (rest : List (GenInst σc W)) (acc : Bool) (tsff : ℚ)
  | measuring (cs : List (GenInst σc W))
  | finishedP (ok : Bool) (cs : List (GenInst σc W))

/-- One resumption of `parallel(...animations)`.  `advancing` is the
suspension at the `(yield)` preceding `cur.next(...)`; `measuring` is the
suspension at `timeSinceFirstFrame = (yield).deltaTime`; a child throwing
propagates out of `parallel` (combinators never catch, spec §7). -/
def parStep {σc W : Type} : StepFn (ParSt σc W) W := fun d s w =>
  match s with
  | .createdP anims =>
      -- body start: materialize the children; an empty list makes
      -- `done.every` vacuously true and the generator returns at once
      match anims with
      | [] => (.finishedP true [], w, .done)
      | c :: cs => (.advancing [] c cs true 0, w, .yielded)
  | .advancing proc cur rest acc tsff =>
      -- the delivered delta `d` is discarded: the child receives `tsff`
      let a := advanceInst cur tsff w
      match a.2.2 with
      | .thrown => (.finishedP false ((a.1 :: proc).reverse ++ rest), a.2.1,
          .thrown)
      | out =>
          let acc' := acc && (match out with | .done => true | _ => false)
          match rest with
          | r :: rs => (.advancing (a.1 :: proc) r rs acc' tsff, a.2.1,
              .yielded)
          | [] =>
              if acc' then (.finishedP true ((a.1 :: proc).reverse), a.2.1,
                  .done)
              else (.measuring ((a.1 :: proc).reverse), a.2.1, .yielded)
  | .measuring cs =>
      match cs with
      | c :: rest => (.advancing [] c rest true d, w, .yielded)
      | [] => (.finishedP true [], w, .done)  -- unreachable: rounds are nonempty
  | .finishedP ok cs => (.finishedP ok cs, w, .done)

/-- `all` is `function* all(...a) { yield* parallel(...a) }`: the delegation
is transparent (resumption `k` of `all` performs exactly resumption `k` of
`parallel`), so its machine is `parStep` itself. -/
def allStep {σc W : Type} : StepFn (ParSt σc W) W := parStep

/-- What one full round of the `for (const iterator of iterators)` loop
computes, starting mid-round before advancing `cur` with `rest` still to
go: each remaining child advanced exactly once, in order, all with the same
`tsff`. -/
def roundRun {σc W : Type} (tsff : ℚ) :
    List (GenInst σc W) → GenInst σc W → List (GenInst σc W) → Bool → W →
      ParSt σc W × W
  | [], cur, proc, acc, w =>
      let a := advanceInst cur tsff w
      match a.2.2 with
      | .thrown => (.finishedP false ((a.1 :: proc).reverse), a.2.1)
      | out =>
          let acc' := acc && (match out with | .done => true | _ => false)
          if acc' then (.finishedP true ((a.1 :: proc).reverse), a.2.1)
          else (.measuring ((a.1 :: proc).reverse), a.2.1)
  | r :: rs, cur, proc, acc, w =>
      let a := advanceInst cur tsff w
      match a.2.2 with
      | .thrown => (.finishedP false ((a.1 :: proc).reverse ++ (r :: rs)),
          a.2.1)
      | out =>
          let acc' := acc && (match out with | .done => true | _ => false)
          roundRun tsff rs r (a.1 :: proc) acc' a.2.1

/-- A child that completes on its first advance (used as a concrete
instance for the `parallel` theorems). -/
def doneChild : GenInst Unit (ℕ × ℕ) :=
  ⟨fun _ _ w => ((), w, .done), (), false⟩

/-- A child that never completes and counts its own advances in the first
component of the world. -/
def bumpFst : GenInst Unit (ℕ × ℕ) :=
  ⟨fun _ _ w => ((), (w.1 + 1, w.2), .yielded), (), false⟩

/-- A child that never completes and counts its own advances in the second
component of the world. -/
def bumpSnd : GenInst Unit (ℕ × ℕ) :=
  ⟨fun _ _ w => ((), (w.1, w.2 + 1), .yielded), (), false⟩

/-! ## Animation Controller (`src/Animation/index.ts`, function `create`)

```js
export const create = (animation, state = {}) => {
    let gen = null;
    const values = sharedValues(state);
    let lastTime = Date.now();
    let raf = null;
    let clearFunctions = [];
    let isPaused = false;

    function loop() {
        if (!gen) { gen = animation.call(null, values.current); }
        let delta = Date.now() - lastTime;
        lastTime = Date.now();
        if (!isPaused) {
            try {
                const res = gen.next({ deltaTime: delta, onClear(cb) { clearFunctions.unshift(cb); } });
                if (res && res.done) { gen = null; }
            } catch (err) { console.error("Animation generator threw", err); gen = null; }
            if (gen) { raf = requestAnimation(loop); } else { isPaused = true; }
        }
    }

    function paused(p) {
        isPaused = p;
        if (!p) { lastTime = Date.now(); raf = requestAnimation(loop); }
        else if (raf) { cancelAnimation(raf); }
    }

    return {
        state: values.current,
        start() { if (raf) cancelAnimation(raf); gen = null; lastTime = Date.now();
                  values.clear(); gen = null; lastTime = Date.now();
                  raf = requestAnimation(loop); },
        clear() { values.clear(); clearFunctions.forEach((f) => f()); clearFunctions = []; },
        pause() { this.paused? paused(true); },
        resume() { paused(false); },
        play() { this.resume(); },
        stop() { this.clear(); gen = null; lastTime = Date.now(); this.pause(); },
        restart() { this.stop(); this.resume(); },
    };
};
```

Model: `Date.now()` is an explicit wall-clock parameter `now : ℚ`; `raf` is
a boolean "a frame callback is pending" (cancelling an already-fired handle
is a no-op, so the numeric handle carries no extra information); creating a
generator runs none of its body, so instantiation stores the template
instance `anim`; `values.clear()` is an abstract `clearW : W → W` (for the
one-cell group it is `svClearQ`); cleanup callbacks registered through
`onClear` are opaque tokens of a type `C` (none of the embedded primitives
registers any), and `clear()` reports the list it invoked, in invocation
order — the `unshift`-built stack makes that LIFO. -/

structure Ctrl (σ W C : Type) where
  gen : Option (GenInst σ W)
  lastTime : ℚ
  raf : Bool
  clearFns : List C
  isPaused : Bool
  values : W

/-- The closure state right after `create(animation, state)` at wall-clock
`t₀`: no coroutine, nothing scheduled, not paused. -/
def mkCtrl {σ W C : Type} (w₀ : W) (t₀ : ℚ) : Ctrl σ W C :=
  ⟨none, t₀, false, [], false, w₀⟩

/-- The body of `function loop()`, entered when a scheduled frame fires at
wall-clock `now` (the pending request is consumed by firing).  Returns the
new closure state and whether an exception was caught and logged. -/
def loopFn {σ W C : Type} (anim : GenInst σ W) (now : ℚ) (c : Ctrl σ W C) :
    Ctrl σ W C × Bool :=
  -- `if (!gen) gen = animation.call(null, values.current);`
  -- `let delta = Date.now() - lastTime; lastTime = Date.now();`
  -- then, only `if (!isPaused)`, the coroutine is resumed
  if c.isPaused then
    ({ c with gen := some (c.gen.getD anim), lastTime := now }, false)
  else
    match advanceInst (c.gen.getD anim) (now - c.lastTime) c.values with
    | (g', w', .yielded) =>
        -- `res.done` is false, so `gen` stays set: `raf = requestAnimation(loop)`
        ({ c with
            gen := some g'
            lastTime := now
            values := w'
            raf := true }, false)
    | (_, w', .done) =>
        -- animation finished: drop the coroutine so it can be re-created,
        -- and since `gen` is now null, `isPaused = true`
        ({ c with
            gen := none
            lastTime := now
            values := w'
            isPaused := true }, false)
    | (_, w', .thrown) =>
        -- `catch (err) { console.error(...); gen = null; }` then, `gen`
        -- being null, `isPaused = true`; the exception stops here
        ({ c with
            gen := none
            lastTime := now
            values := w'
            isPaused := true }, true)

/-- A frame instant at wall-clock `now`: the platform invokes the scheduled
callback only when one is pending, and firing consumes the request. -/
def tick {σ W C : Type} (anim : GenInst σ W) (now : ℚ) (c : Ctrl σ W C) :
    Ctrl σ W C × Bool :=
  if c.raf then loopFn anim now { c with raf := false } else (c, false)

/-- `start()`: cancel any pending frame, drop the coroutine, reset
`lastTime`, reset the state group, schedule `loop` — and leave `isPaused`
untouched (the source never resets it here). -/
def startC {σ W C : Type} (clearW : W → W) (now : ℚ) (c : Ctrl σ W C) :
    Ctrl σ W C :=
  { c with
    gen := none
    lastTime := now
    values := clearW c.values
    raf := true }

/-- `clear()`: `values.clear(); clearFunctions.forEach((f) => f());
clearFunctions = [];` — returns the invoked cleanup callbacks in invocation
order (LIFO, since `onClear` unshifts). -/
def clearC {σ W C : Type} (clearW : W → W) (c : Ctrl σ W C) :
    Ctrl σ W C × List C :=
  ({ c with
      values := clearW c.values
      clearFns := [] }, c.clearFns)

/-- `pause()` = `paused(true)`: set the flag and cancel the pending frame. -/
def pauseC {σ W C : Type} (c : Ctrl σ W C) : Ctrl σ W C :=
  { c with isPaused := true, raf := false }

/-- `resume()` / `play()` = `paused(false)`: clear the flag, reset
`lastTime` to now, schedule `loop`. -/
def resumeC {σ W C : Type} (now : ℚ) (c : Ctrl σ W C) : Ctrl σ W C :=
  { c with
    isPaused := false
    lastTime := now
    raf := true }

/-- `stop()`: `this.clear(); gen = null; lastTime = Date.now();
this.pause();` -/
def stopC {σ W C : Type} (clearW : W → W) (now : ℚ) (c : Ctrl σ W C) :
    Ctrl σ W C × List C :=
  (pauseC { (clearC clearW c).1 with gen := none, lastTime := now },
    (clearC clearW c).2)

/-- `restart()`: `this.stop(); this.resume();` -/
def restartC {σ W C : Type} (clearW : W → W) (now : ℚ) (c : Ctrl σ W C) :
    Ctrl σ W C × List C :=
  (resumeC now (stopC clearW now c).1, (stopC clearW now c).2)

/-- Frame instants at successive wall-clock times. -/
def runTicks {σ W C : Type} (anim : GenInst σ W) :
    List ℚ → Ctrl σ W C → Ctrl σ W C
  | [], c => c
  | t :: ts, c => runTicks anim ts (tick anim t c).1

/-- The user animation for the Controller scenarios: on its first
resumption it writes `42` to the cell and suspends; on its second it
completes. -/
def writeThenDone : GenInst ℕ (SV ℚ) :=
  ⟨fun _ n w =>
    match n with
    | 0 => (1, svSetQ w 42, .yielded)
    | n + 1 => (n + 1, w, .done), 0, false⟩

/-- A controller paused mid-run at wall-clock 100 while owning a suspended
coroutine. -/
def cPaused : Ctrl ℕ (SV ℚ) Unit :=
  ⟨some writeThenDone, 100, false, [], true, ⟨0, 0⟩⟩

/-- A coroutine whose first resumption throws. -/
def throwing : GenInst Unit (SV ℚ) :=
  ⟨fun _ _ w => ((), w, .thrown), (), false⟩

/-- A running controller about to resume `throwing`. -/
def cThrow : Ctrl Unit (SV ℚ) Unit :=
  ⟨some throwing, 0, true, [], false, ⟨0, 0⟩⟩

/-- The C3 scenario: controller created at wall-clock 0 over the one-cell
group `{v: 0}`, `start()` at 0, frames at 1 and 2 — the coroutine writes 42
and then completes, so the controller drops it and parks itself paused. -/
def c3AfterFirstRun : Ctrl ℕ (SV ℚ) Unit :=
  (tick writeThenDone 2 (tick writeThenDone 1
    (startC svClearQ 0 (mkCtrl ⟨0, 0⟩ 0))).1).1

/-- The C3 scenario continued: `start()` again at 3, then the scheduled
frame fires at 4. -/
def c3AfterRestart : Ctrl ℕ (SV ℚ) Unit :=
  (tick writeThenDone 4 (startC svClearQ 3 c3AfterFirstRun)).1

/-- The C4 scenario, side A: `restart()` on a fresh controller at
wall-clock 0, then the scheduled frame fires at 1. -/
def c4Restart : Ctrl ℕ (SV ℚ) Unit :=
  (tick writeThenDone 1 (restartC svClearQ 0 (mkCtrl ⟨0, 0⟩ 0)).1).1

/-- The C4 scenario, side B: `stop()` then `start()` on the same fresh
controller at wall-clock 0, then a frame instant at 1. -/
def c4StopStart : Ctrl ℕ (SV ℚ) Unit :=
  (tick writeThenDone 1
    (startC svClearQ 0 (stopC svClearQ 0 (mkCtrl ⟨0, 0⟩ 0)).1)).1

theorem runSteps_nil {σ W : Type} (f : StepFn σ W) (s : σ) (w : W) :
    runSteps f [] s w = (s, w) := rfl

theorem runSteps_cons {σ W : Type} (f : StepFn σ W) (d : ℚ) (ds : List ℚ)
    (s : σ) (w : W) :
    runSteps f (d :: ds) s w =
      runSteps f ds (f d s w).1 (f d s w).2.1 := rfl

theorem svSetQ_value (sv : SV ℚ) (v : ℚ) : (svSetQ sv v).value = v := by
  unfold svSetQ SV.setValue
  split
  · next h => simpa using h.symm
  · rfl

/-- One resumption from an `activeT` state stays in the same `activeT`
envelope: the caller's config object and the defaulted configuration
computed on the first resumption are never modified afterwards. -/
theorem timingStep_active (d : ℚ) (cfg : TimingConfig) (eff : EffConfig)
    (ph : TimingPhase) (w : SV ℚ) :
    ∃ ph' w' o,
      timingStep d (.activeT cfg eff ph) w = (.activeT cfg eff ph', w', o) := by
  cases ph <;> dsimp only [timingStep] <;>
    first
      | exact ⟨_, _, _, rfl⟩
      | (split
         · exact ⟨_, _, _, rfl⟩
         · exact ⟨_, _, _, rfl⟩)

/-- Driving from an `activeT` state keeps the config envelope unchanged. -/
theorem runSteps_timing_active (ds : List ℚ) :
    ∀ (cfg : TimingConfig) (eff : EffConfig) (ph : TimingPhase) (w : SV ℚ),
    ∃ ph', (runSteps timingStep ds (.activeT cfg eff ph) w).1 =
      .activeT cfg eff ph' := by
  induction ds with
  | nil => exact fun cfg eff ph w => ⟨ph, rfl⟩
  | cons d ds ih =>
      intro cfg eff ph w
      obtain ⟨ph', w', o, hstep⟩ := timingStep_active d cfg eff ph w
      rw [runSteps_cons, hstep]
      exact ih cfg eff ph' w'

/-- A single resumption preserves `TimingInv` and the snap-to target. -/
theorem timingStep_inv (d : ℚ) (s : TimingSt) (w : SV ℚ) (h : TimingInv s w) :
    TimingInv (timingStep d s w).1 (timingStep d s w).2.1
    ∧ (timingStep d s w).1.toTarget = s.toTarget := by
  cases s with
  | createdT cfg =>
      refine ⟨?_, rfl⟩
      intro hph
      simp [timingStep, TimingSt.phaseOf] at hph
  | activeT cfg eff ph =>
      cases ph with
      | inWaitT ws =>
          dsimp only [timingStep]
          split <;>
            exact ⟨by intro hph; simp [TimingSt.phaseOf] at hph, rfl⟩
      | awaitStart =>
          dsimp only [timingStep]
          split
          · exact ⟨by intro hph; simp [TimingSt.phaseOf] at hph, rfl⟩
          · refine ⟨?_, rfl⟩
            intro _
            simpa [TimingSt.toTarget] using svSetQ_value w eff.«to»
      | inLoop start current =>
          dsimp only [timingStep]
          split
          · exact ⟨by intro hph; simp [TimingSt.phaseOf] at hph, rfl⟩
          · refine ⟨?_, rfl⟩
            intro _
            simpa [TimingSt.toTarget] using svSetQ_value w eff.«to»
      | finishedT =>
          exact ⟨fun _ => h (by simp [TimingSt.phaseOf]), rfl⟩

/-- Driving any number of resumptions preserves `TimingInv` and the
snap-to target. -/
theorem runSteps_timing_inv (ds : List ℚ) :
    ∀ (s : TimingSt) (w : SV ℚ), TimingInv s w →
      TimingInv (runSteps timingStep ds s w).1 (runSteps timingStep ds s w).2
      ∧ (runSteps timingStep ds s w).1.toTarget = s.toTarget := by
  induction ds with
  | nil => exact fun s w h => ⟨h, rfl⟩
  | cons d ds ih =>
      intro s w h
      obtain ⟨h1, h2⟩ := timingStep_inv d s w h
      rw [runSteps_cons]
      obtain ⟨h3, h4⟩ := ih _ _ h1
      exact ⟨h3, h4.trans h2⟩

/-- C1: for every `SharedValue` target and every run of
`timing(v, config)` that the Controller drives to completion (the run
reaches the `finishedT` phase, which is entered exactly when the generator
reports `done`), the cell holds exactly `config.to` immediately afterwards,
because the last step executes the explicit final write `value.value = to`.
(With a `SharedValue` target no cancelling callback exists, so every
completion goes through this final write; the claim's `easing: linear` case
is the instance `easing = some Easing.linear`.) -/
theorem timing_completion_snaps_to_target (cfg : TimingConfig) (w : SV ℚ)
    (ds : List ℚ)
    (h : (runSteps timingStep ds (.createdT cfg) w).1.phaseOf
          = some .finishedT) :
    (runSteps timingStep ds (.createdT cfg) w).2.value = cfg.«to» := by
  have h0 : TimingInv (.createdT cfg) w := by
    intro hph
    simp [TimingSt.phaseOf] at hph
  obtain ⟨h1, h2⟩ := runSteps_timing_inv ds (.createdT cfg) w h0
  rw [h1 h, h2]
  rfl

/-- Witness for C1: `timing(v, {to: 7, duration: 0})` on a cell holding `0`,
driven by resumptions with deltas `1, 1, 1`, completes and leaves the cell
at exactly `7`. -/
theorem timing_completion_snaps_to_target_witness :
    (runSteps timingStep [1, 1, 1]
        (.createdT ⟨none, 7, none, none, some 0⟩) ⟨0, 0⟩).1.phaseOf
      = some .finishedT
    ∧ (runSteps timingStep [1, 1, 1]
        (.createdT ⟨none, 7, none, none, some 0⟩) ⟨0, 0⟩).2.value = 7 :=
  ⟨by norm_num [runSteps, timingStep, waitStep, mergeConfig, svSetQ,
      SV.setValue, TimingSt.phaseOf],
   timing_completion_snaps_to_target ⟨none, 7, none, none, some 0⟩
    ⟨0, 0⟩ [1, 1, 1]
    (by norm_num [runSteps, timingStep, waitStep, mergeConfig, svSetQ,
      SV.setValue, TimingSt.phaseOf])⟩

/-- C10: with a `SharedValue` target, `timing` mutates the caller-supplied
`config` object in place on its first resumption: from then on (for the
whole run, hence observably to the caller and to any later reuse of the
object) the object's `from` property holds the target's value at that
moment, and every other property (`to`, `easing`, `delay`, `duration`) is
unmodified. -/
theorem timing_mutates_caller_config (cfg : TimingConfig) (w : SV ℚ)
    (d : ℚ) (ds : List ℚ) :
    (∃ ph, (runSteps timingStep (d :: ds) (.createdT cfg) w).1 =
        .activeT { cfg with «from» := some w.value }
          (mergeConfig { cfg with «from» := some w.value }) ph)
    ∧ ({ cfg with «from» := some w.value } : TimingConfig).«from»
        = some w.value
    ∧ ({ cfg with «from» := some w.value } : TimingConfig).«to» = cfg.«to»
    ∧ ({ cfg with «from» := some w.value } : TimingConfig).easing = cfg.easing
    ∧ ({ cfg with «from» := some w.value } : TimingConfig).delay = cfg.delay
    ∧ ({ cfg with «from» := some w.value } : TimingConfig).duration
        = cfg.duration := by
  refine ⟨?_, rfl, rfl, rfl, rfl, rfl⟩
  rw [runSteps_cons]
  exact runSteps_timing_active ds _ _ _ w

/-- C5 counterexample: the claim says a supplied explicit `from` is used.
Target cell holds `5`, config is `{from: 100, to: 10, duration: 10}`
(defaults: no delay, linear easing).  Driving with deltas `1, 1, 1, 2`
reaches the in-loop write at `current - start = 2`: the code writes
`5 + (10 - 5) * (2/10) = 6`, whereas interpolating from the supplied
`from = 100` would give `100 + (10 - 100) * (2/10) = 82 ≠ 6`. -/
theorem timing_explicit_from_ignored_cex :
    (runSteps timingStep [1, 1, 1, 2]
        (.createdT ⟨some 100, 10, none, none, some 10⟩) ⟨5, 5⟩).2.value = 6
    ∧ (6 : ℚ) ≠ 100 + (10 - 100) * ((3 - 1) / 10) := by
  constructor
  · norm_num [runSteps, timingStep, waitStep, mergeConfig, Easing.linear,
      svSetQ, SV.setValue]
  · norm_num

/-- C5 (amended): with a `SharedValue` target, the interpolation start
`from` is NOT merely a default for an absent `config.from` — it is always
the target's current value at the first resumption: `config.from` is
overwritten before the defaulting destructure, so a supplied explicit
`from` is ignored.  (Only a callback target keeps the supplied `from`.) -/
theorem timing_from_is_current_value (cfg : TimingConfig) (w : SV ℚ)
    (d : ℚ) (ds : List ℚ) :
    ∃ ph eff, (runSteps timingStep (d :: ds) (.createdT cfg) w).1 =
        .activeT { cfg with «from» := some w.value } eff ph
      ∧ eff.«from» = w.value := by
  rw [runSteps_cons]
  obtain ⟨ph, hph⟩ := runSteps_timing_active ds
    ({ cfg with «from» := some w.value })
    (mergeConfig { cfg with «from» := some w.value }) (.inWaitT .started) w
  exact ⟨ph, mergeConfig { cfg with «from» := some w.value }, hph, rfl⟩

/-- C6: a write to a `SharedValue` — if `String(v)` differs from
`String(current)` the stored value is updated and exactly one `"value"`
notification followed by exactly one `"change"` notification are emitted,
in that order (the pub/sub primitive delivers them synchronously, spec §6);
if the string representations are equal, the cell and the emission trace are
untouched; and `clear()` is the same write applied to the initial value. -/
theorem sharedValue_set_semantics {T Str : Type} [DecidableEq Str]
    (str : T → Str) (sv : SV T) (v : T) :
    (str v ≠ str sv.value →
      SV.setValue str sv v =
        ({ sv with value := v }, [Notice.value v, Notice.change v]))
    ∧ (str v = str sv.value → SV.setValue str sv v = (sv, []))
    ∧ SV.clear str sv = SV.setValue str sv sv.initialValue := by
  refine ⟨?_, ?_, rfl⟩
  · intro h
    simp [SV.setValue, h]
  · intro h
    simp [SV.setValue, h]

/-- Witness for C6: on a numeric cell holding `5` (initial `0`), writing `7`
(whose string form differs from `5`'s) stores `7` and emits `"value" 7` then
`"change" 7`. -/
theorem sharedValue_set_semantics_witness :
    (fun q : ℚ => q) 7 ≠ (fun q : ℚ => q) ((⟨0, 5⟩ : SV ℚ)).value
    ∧ SV.setValue (fun q : ℚ => q) (⟨0, 5⟩ : SV ℚ) 7 =
        (⟨0, 7⟩, [Notice.value 7, Notice.change 7]) := by
  have h : (fun q : ℚ => q) 7 ≠ (fun q : ℚ => q) ((⟨0, 5⟩ : SV ℚ)).value := by
    norm_num
  exact ⟨h, (sharedValue_set_semantics (fun q : ℚ => q) (⟨0, 5⟩ : SV ℚ) 7).1 h⟩

/-- C9: for every duration `d` — including `0` and negative values — the
first resumption of `wait(d)` suspends at `const from = (yield).deltaTime`
and never reports completion; consequently the first resumptions of
`delay(d, a)`, of `timing` (which starts with `yield* wait(delay)`), and of
`stagger`'s index-0 wrapper all suspend without touching their payload or
the world. -/
theorem wait_first_resumption_suspends :
    (∀ (duration d : ℚ), waitStep duration d .created = (.started, false))
    ∧ (∀ (σ W : Type) (duration : ℚ) (g : Option (GenInst σ W)) (d : ℚ)
        (w : W), delayStep duration g d .createdD w =
          (.inWaitD .started, w, .yielded))
    ∧ (∀ (σ W : Type) (delayMs : ℚ) (g : GenInst σ W) (d : ℚ) (w : W),
        staggerWrapStep delayMs 0 g d .createdD w =
          (.inWaitD .started, w, .yielded))
    ∧ (∀ (cfg : TimingConfig) (d : ℚ) (w : SV ℚ),
        (timingStep d (.createdT cfg) w).2 = (w, .yielded)) :=
  ⟨fun _ _ => rfl, fun _ _ _ _ _ _ => rfl, fun _ _ _ _ _ _ => rfl,
    fun _ _ _ => rfl⟩

/-- Once `parallel` has finished, further resumptions change nothing. -/
theorem runSteps_par_finished {σc W : Type} (ds : List ℚ) (ok : Bool)
    (cs : List (GenInst σc W)) (w : W) :
    runSteps parStep ds (.finishedP ok cs) w = (.finishedP ok cs, w) := by
  induction ds with
  | nil => rfl
  | cons d ds ih => rw [runSteps_cons]; exact ih

/-- A `next()` call that reports `done` leaves the instance finished. -/
theorem advanceInst_done_fin {σ W : Type} (g : GenInst σ W) (d : ℚ) (w : W)
    (h : (advanceInst g d w).2.2 = .done) :
    (advanceInst g d w).1.fin = true := by
  unfold advanceInst at h ⊢
  by_cases hf : g.fin
  · simp [hf]
  · simp only [hf, Bool.false_eq_true, if_false] at h ⊢
    rw [h]

/-- The `rest.length + 1` driver resumptions that advance the remainder of a
round perform exactly `roundRun`: each remaining child is advanced once, in
declaration order, with the round's `timeSinceFirstFrame`; the delivered
driver deltas are ignored. -/
theorem parallel_round_eq {σc W : Type} :
    ∀ (rest : List (GenInst σc W)) (cur : GenInst σc W)
      (proc : List (GenInst σc W)) (acc : Bool) (tsff : ℚ) (w : W)
      (d : ℚ) (ds : List ℚ), ds.length = rest.length →
      runSteps parStep (d :: ds) (.advancing proc cur rest acc tsff) w =
        roundRun tsff rest cur proc acc w := by
  intro rest
  induction rest with
  | nil =>
      intro cur proc acc tsff w d ds hlen
      have hds : ds = [] := List.length_eq_zero.mp hlen
      subst hds
      rw [runSteps_cons]
      rcases ha : advanceInst cur tsff w with ⟨cur', w', out⟩
      cases out <;> cases acc <;>
        simp [parStep, roundRun, ha, runSteps]
  | cons r rs ih =>
      intro cur proc acc tsff w d ds hlen
      cases ds with
      | nil => simp at hlen
      | cons d' ds' =>
          have hlen' : ds'.length = rs.length := by simpa using hlen
          rw [runSteps_cons]
          rcases ha : advanceInst cur tsff w with ⟨cur', w', out⟩
          cases out with
          | thrown =>
              simp only [parStep, ha]
              rw [runSteps_par_finished]
              simp [roundRun, ha]
          | yielded =>
              simp only [parStep, ha]
              rw [ih r (cur' :: proc) (acc && false) tsff w' d' ds' hlen']
              simp [roundRun, ha]
          | done =>
              simp only [parStep, ha]
              rw [ih r (cur' :: proc) (acc && true) tsff w' d' ds' hlen']
              simp [roundRun, ha]

/-- If a round ends with `parallel` returning normally (`finishedP true`),
then every child in the resulting list is finished. -/
theorem roundRun_all_fin {σc W : Type} :
    ∀ (rest : List (GenInst σc W)) (cur : GenInst σc W)
      (proc : List (GenInst σc W)) (acc : Bool) (tsff : ℚ) (w : W)
      (cs' : List (GenInst σc W)) (w' : W),
      roundRun tsff rest cur proc acc w = (.finishedP true cs', w') →
      (acc = true → ∀ g ∈ proc, g.fin = true) →
      ∀ g ∈ cs', g.fin = true := by
  intro rest
  induction rest with
  | nil =>
      intro cur proc acc tsff w cs' w' hrun hproc
      rcases ha : advanceInst cur tsff w with ⟨cur', w2, out⟩
      have hfin : out = .done → cur'.fin = true := by
        intro hd
        have h2 : (advanceInst cur tsff w).2.2 = .done := by rw [ha, hd]
        have h1 := advanceInst_done_fin cur tsff w h2
        rw [ha] at h1
        exact h1
      cases out with
      | thrown => simp [roundRun, ha] at hrun
      | yielded => simp [roundRun, ha] at hrun
      | done =>
          cases acc with
          | false => simp [roundRun, ha] at hrun
          | true =>
              simp only [roundRun, ha, Bool.and_true, if_true] at hrun
              intro g hg
              have hcs' : (cur' :: proc).reverse = cs' := by
                have := congrArg Prod.fst hrun
                simpa using this
              rw [← hcs'] at hg
              rw [List.mem_reverse] at hg
              rcases List.mem_cons.mp hg with hg | hg
              · subst hg; exact hfin rfl
              · exact hproc rfl g hg
  | cons r rs ih =>
      intro cur proc acc tsff w cs' w' hrun hproc
      rcases ha : advanceInst cur tsff w with ⟨cur', w2, out⟩
      have hfin : out = .done → cur'.fin = true := by
        intro hd
        have h2 : (advanceInst cur tsff w).2.2 = .done := by rw [ha, hd]
        have h1 := advanceInst_done_fin cur tsff w h2
        rw [ha] at h1
        exact h1
      cases out with
      | thrown => simp [roundRun, ha] at hrun
      | yielded =>
          simp only [roundRun, ha] at hrun
          refine ih r (cur' :: proc) (acc && false) tsff w2 cs' w' hrun ?_
          intro hacc
          simp at hacc
      | done =>
          simp only [roundRun, ha] at hrun
          refine ih r (cur' :: proc) (acc && true) tsff w2 cs' w' hrun ?_
          intro hacc g hg
          have hacc' : acc = true := by simpa using hacc
          rcases List.mem_cons.mp hg with hg | hg
          · subst hg; exact hfin rfl
          · exact hproc hacc' g hg

/-- C2 (amended): `parallel` (and its alias `all`, whose delegation makes it
the very same machine) advances its children once per *round*, in
declaration order, all with the same `timeSinceFirstFrame` value — but a
round costs one driver tick per child (the `yield` inside the for-loop),
whose delivered deltas are ignored, plus one further tick to sample the
next round's delta when the round did not finish; and `parallel` reports
completion exactly at the end of a round in which every child reported
done, so it completes only when all children have completed. -/
theorem parallel_round_semantics {σc W : Type} :
    (∀ (rest : List (GenInst σc W)) (cur : GenInst σc W)
        (proc : List (GenInst σc W)) (acc : Bool) (tsff : ℚ) (w : W)
        (d : ℚ) (ds : List ℚ), ds.length = rest.length →
        runSteps parStep (d :: ds) (.advancing proc cur rest acc tsff) w =
          roundRun tsff rest cur proc acc w)
    ∧ (∀ (rest : List (GenInst σc W)) (cur : GenInst σc W)
        (proc : List (GenInst σc W)) (acc : Bool) (tsff : ℚ) (w : W)
        (cs' : List (GenInst σc W)) (w' : W),
        roundRun tsff rest cur proc acc w = (.finishedP true cs', w') →
        (acc = true → ∀ g ∈ proc, g.fin = true) →
        ∀ g ∈ cs', g.fin = true) :=
  ⟨parallel_round_eq, roundRun_all_fin⟩

/-- Witness for C2 (amended): a one-child round — the single driver tick
advances the child with the round's `tsff`, the child reports done, the
round ends with `parallel` done, and every child in the final list is
finished. -/
theorem parallel_round_semantics_witness :
    ([] : List ℚ).length = ([] : List (GenInst Unit (ℕ × ℕ))).length
    ∧ runSteps parStep [(5 : ℚ)]
        (.advancing [] doneChild [] true 0) ((0, 0) : ℕ × ℕ) =
        roundRun 0 [] doneChild [] true (0, 0)
    ∧ ∀ g ∈ [{ doneChild with fin := true }], g.fin = true := by
  refine ⟨rfl, ?_, ?_⟩
  · exact parallel_round_semantics.1 [] doneChild [] true 0 (0, 0) 5 [] rfl
  · exact parallel_round_semantics.2 [] doneChild [] true 0 (0, 0)
      [{ doneChild with fin := true }] (0, 0) rfl (fun _ _ hg => by cases hg)

/-- C2 counterexample: two never-finishing children that count their own
advances.  After two driver ticks of `parallel(bumpFst, bumpSnd)` the
counts are `(1, 0)` — the first tick suspends before any child is advanced
and the second tick advances only the first child — not `(1, 1)` or
`(2, 2)` as "each single driver tick advances every one of the N children
exactly once" predicts after one or two ticks. -/
theorem parallel_one_child_per_tick_cex :
    (runSteps parStep [1, 1] (.createdP [bumpFst, bumpSnd])
      ((0, 0) : ℕ × ℕ)).2 = (1, 0)
    ∧ ((1, 0) : ℕ × ℕ) ≠ (1, 1) ∧ ((1, 0) : ℕ × ℕ) ≠ (2, 2)
    ∧ runSteps allStep [1, 1] (.createdP [bumpFst, bumpSnd])
        ((0, 0) : ℕ × ℕ) =
      runSteps parStep [1, 1] (.createdP [bumpFst, bumpSnd])
        ((0, 0) : ℕ × ℕ) :=
  ⟨rfl, by decide, by decide, rfl⟩

/-- A frame instant after `pause()` does nothing: `paused(true)` cancelled
the pending request, so the callback never fires. -/
theorem tick_after_pause {σ W C : Type} (anim : GenInst σ W) (t : ℚ)
    (c : Ctrl σ W C) : tick anim t (pauseC c) = (pauseC c, false) := by
  simp [tick, pauseC]

/-- C7: after `pause()`, no matter how many frame instants pass and how
much wall-clock time elapses, the controller — in particular every Reactive
Value in its group — is unchanged; `pause()`/`resume()` retain the
suspended coroutine instance; and the first frame after `resume()` resumes
the coroutine from its paused suspension state with a `deltaTime` of
`now - resumeTime`, which excludes the paused wall-clock interval (because
`paused(false)` resets `lastTime`). -/
theorem pause_freezes_resume_continues {σ W C : Type} (anim : GenInst σ W) :
    (∀ (c : Ctrl σ W C) (ts : List ℚ),
        runTicks anim ts (pauseC c) = pauseC c)
    ∧ (∀ (c : Ctrl σ W C) (t : ℚ),
        (pauseC c).values = c.values ∧ (pauseC c).gen = c.gen
        ∧ (resumeC t c).gen = c.gen)
    ∧ (∀ (c : Ctrl σ W C) (g : GenInst σ W) (t now : ℚ),
        c.gen = some g → g.fin = false →
        (tick anim now (resumeC t c)).1.values
          = (g.step (now - t) g.st c.values).2.1) := by
  refine ⟨?_, ?_, ?_⟩
  · intro c ts
    induction ts with
    | nil => rfl
    | cons t ts ih => simp [runTicks, tick_after_pause, ih]
  · exact fun c t => ⟨rfl, rfl, rfl⟩
  · intro c g t now hg hfin
    rcases hs : g.step (now - t) g.st c.values with ⟨s', w', o⟩
    cases o <;> simp [tick, resumeC, loopFn, advanceInst, hg, hfin, hs]

/-- Witness for C7: frames at 300, 400, 500 leave the paused controller
untouched; resuming at 200 and a frame at 201 resume the coroutine from
its retained state with `deltaTime = 1`. -/
theorem pause_freezes_resume_continues_witness :
    cPaused.gen = some writeThenDone ∧ writeThenDone.fin = false
    ∧ runTicks writeThenDone [300, 400, 500] (pauseC cPaused) = pauseC cPaused
    ∧ (tick writeThenDone 201 (resumeC 200 cPaused)).1.values
        = (writeThenDone.step (201 - 200) writeThenDone.st cPaused.values).2.1 :=
  ⟨rfl, rfl,
    (pause_freezes_resume_continues writeThenDone).1 cPaused [300, 400, 500],
    (pause_freezes_resume_continues writeThenDone).2.2 cPaused writeThenDone
      200 201 rfl rfl⟩

/-- C8: an exception thrown while resuming the coroutine is caught by
`loop`'s try/catch: it is logged (the `true` output), the coroutine
reference is dropped, no further frame is scheduled, and the controller
parks itself paused; the frame callback itself returns normally (the model
`tick` is a total function into a plain state), so nothing propagates to
the frame scheduler or to the caller of `start()`. -/
theorem exception_caught_at_controller {σ W C : Type} (anim : GenInst σ W)
    (c : Ctrl σ W C) (g : GenInst σ W) (now : ℚ)
    (hg : c.gen = some g) (hfin : g.fin = false) (hraf : c.raf = true)
    (hp : c.isPaused = false)
    (hthrow : (g.step (now - c.lastTime) g.st c.values).2.2 = .thrown) :
    tick anim now c =
      ({ c with
          gen := none
          raf := false
          isPaused := true
          lastTime := now
          values := (g.step (now - c.lastTime) g.st c.values).2.1 }, true) := by
  rcases hs : g.step (now - c.lastTime) g.st c.values with ⟨s', w', o⟩
  rw [hs] at hthrow
  subst hthrow
  simp [tick, loopFn, advanceInst, hg, hfin, hraf, hp, hs]

/-- Witness for C8: the throwing coroutine is dropped, the error is logged,
nothing is rescheduled and the controller parks itself paused. -/
theorem exception_caught_at_controller_witness :
    cThrow.gen = some throwing ∧ throwing.fin = false ∧ cThrow.raf = true
    ∧ cThrow.isPaused = false
    ∧ (throwing.step (5 - cThrow.lastTime) throwing.st cThrow.values).2.2
        = .thrown
    ∧ tick throwing 5 cThrow =
      ({ cThrow with
          gen := none
          raf := false
          isPaused := true
          lastTime := 5
          values := (throwing.step (5 - cThrow.lastTime) throwing.st
            cThrow.values).2.1 }, true) :=
  ⟨rfl, rfl, rfl, rfl, rfl,
    exception_caught_at_controller throwing cThrow throwing 5 rfl rfl rfl rfl
      rfl⟩

/-- C3 (evaluation at the failing input): the initial `start()` does run
the coroutine to completion (cell = 42, coroutine dropped) — but the
completion path left `isPaused = true` and `start()` never resets it, so
the second `start()` schedules one frame that merely instantiates a fresh
coroutine (state 0) without advancing it, schedules nothing further
(`raf = false`) and stays paused: the controller is not Running after
`start()` from the post-completion Idle state, contradicting the claim and
the source's own `start()` documentation. -/
theorem start_after_completion_does_not_run :
    c3AfterFirstRun.values.value = 42
    ∧ c3AfterFirstRun.gen = none
    ∧ c3AfterFirstRun.isPaused = true
    ∧ c3AfterFirstRun.raf = false
    ∧ (startC svClearQ 3 c3AfterFirstRun).raf = true
    ∧ (startC svClearQ 3 c3AfterFirstRun).isPaused = true
    ∧ c3AfterRestart.values.value = 0
    ∧ c3AfterRestart.raf = false
    ∧ c3AfterRestart.isPaused = true
    ∧ c3AfterRestart.gen.map (fun g => g.st) = some 0 := by
  norm_num [c3AfterRestart, c3AfterFirstRun, tick, loopFn, advanceInst,
    startC, mkCtrl, svClearQ, svSetQ, SV.setValue, writeThenDone]

/-- C4 (evaluation at the failing input): `restart()` (= `stop();resume()`
in the source) drives a fresh coroutine — after one frame the cell holds 42
and the next frame is scheduled — whereas `stop()` followed by `start()`
leaves the controller paused (`stop()`'s `pause()` set `isPaused` and
`start()` never clears it): its frame advances nothing (cell still 0) and
schedules nothing, so the two call sequences are observably different,
contradicting the claim and the source's own `restart()` documentation
("a shortcut for stop() followed by start()").  Both sides invoke the same
cleanup (`stop()`), so the divergence is only the paused flag. -/
theorem restart_not_equivalent_to_stop_start :
    c4Restart.values.value = 42
    ∧ c4Restart.isPaused = false
    ∧ c4Restart.raf = true
    ∧ c4StopStart.values.value = 0
    ∧ c4StopStart.isPaused = true
    ∧ c4StopStart.raf = false
    ∧ c4Restart.values.value ≠ c4StopStart.values.value := by
  norm_num [c4Restart, c4StopStart, tick, loopFn, advanceInst, startC,
    stopC, restartC, resumeC, pauseC, clearC, mkCtrl, svClearQ, svSetQ,
    SV.setValue, writeThenDone]
